import Mathlib

/-!
Verification of the `my-vue` reactivity core
(`src/packages/reactivity/src/effect.ts`): a shallow embedding of the
dependency-tracking / effect-scheduling engine.

Modelling choices:
* JS object identity becomes `Obj` (a numeric id plus a kind tag telling
  whether the object is an array — the `isArray` test lives in the external
  `@my-vue/shared` package, so the tag is modelled from the spec's
  "sequence-like" notion).
* Slot keys (`Key`) are strings or the special `ITERATE_KEY` symbol.
* `ReactiveEffect` instances become numeric ids; their mutable fields live in
  an `Effect` record stored in the global state `RState` (association list
  keyed by id).  The `Dep` sets of the source (JS `Set` objects shared between
  `targetMap` and `effect.deps`) are identified by their `(target, key)`
  address in the registry; membership lists keep JS `Set` insertion order and
  de-duplication.
* The module-level mutable variables `activeEffect` and `shouldTrack` are
  fields of `RState`.
* An effect's user computation `fn` is an arbitrary state transformer
  `RState → RState × Outcome`; `Outcome.err` models a thrown exception, and
  `run`'s `try/finally` block runs the `finally` part for both outcomes.
* `triggerEffects` / `triggerEffect` are modelled as the notification trace
  taken at notification time: the fixed snapshot array `[...dep]`, the two
  `for` passes (computed first), and the per-effect `activeEffect !== effect`
  guard deciding between skip / scheduler / run.
-/

namespace MyVue

/-- Kind tag for an observed object: a JS array or a plain object.
Modelled from the spec: the external `@my-vue/shared` helpers `isArray` /
`isObject` are not under `src/`; the spec calls these "sequence-like" vs
"plain keyed structure". -/
inductive ObjKind where
  | arr : ObjKind
  | plain : ObjKind
deriving DecidableEq, Repr

/-- An observed object: identity plus kind. -/
structure Obj where
  id : Nat
  kind : ObjKind
deriving DecidableEq, Repr

/-- Modelled from the spec: `isArray` from `@my-vue/shared` (not under
`src/`) — whether the target is sequence-like. -/
def isArray (t : Obj) : Bool :=
  match t.kind with
  | .arr => true
  | .plain => false

/-- Modelled from the spec: `isObject` from `@my-vue/shared` (not under
`src/`).  Every observed target passed to `trigger` is an object, so this is
constantly `true` on `Obj`. -/
def isObject (_ : Obj) : Bool := true

/-- A slot key: a string property key, or the `ITERATE_KEY` symbol
(`Symbol('iterate')` in the source). -/
inductive Key where
  | s : String → Key
  | iterate : Key
deriving DecidableEq, Repr

/-- The numeric value of a decimal digit character, if any. -/
def digitVal (c : Char) : Option Nat :=
  if c = '0' then some 0 else if c = '1' then some 1 else if c = '2' then some 2
  else if c = '3' then some 3 else if c = '4' then some 4 else if c = '5' then some 5
  else if c = '6' then some 6 else if c = '7' then some 7 else if c = '8' then some 8
  else if c = '9' then some 9 else none

/-- Parse a nonempty all-digit character list as a natural number. -/
def strToNat (cs : List Char) : Option Nat :=
  match cs with
  | [] => none
  | _ => cs.foldl (fun acc c => acc.bind (fun n => (digitVal c).map (fun d => n * 10 + d))) (some 0)

/-- Modelled from the spec: `isIntegerKey` from `@my-vue/shared` (not under
`src/`) — whether the key is the canonical decimal string of an integer
index (the parsed value printed back must equal the key, as in
`'' + parseInt(key, 10) === key`). -/
def isIntegerKey : Key → Bool
  | .s str =>
    match strToNat str.data with
    | some n => Nat.repr n == str
    | none => false
  | .iterate => false

/-- `TriggerOpTypes` (from `./operations`, not under `src/`; the spec lists
the operation kinds `add`, `set`, `delete`, `clear`). -/
inductive TriggerOp where
  | add : TriggerOp
  | set : TriggerOp
  | delete : TriggerOp
  | clear : TriggerOp
deriving DecidableEq, Repr

/-- The mutable fields of a `ReactiveEffect`.  `computed` (an object
reference in the source, set by the computed-ref wrapper) and `scheduler` /
`onStop` (optional callables) are modelled as presence flags; `onStopCalls`
counts invocations of the `onStop` callback so "fires exactly once" is
expressible. -/
structure Effect where
  active : Bool := true
  deps : List (Obj × Key) := []
  parent : Option Nat := none
  computed : Bool := false
  deferStop : Bool := false
  hasScheduler : Bool := false
  hasOnStop : Bool := false
  onStopCalls : Nat := 0
deriving DecidableEq, Repr

/-- Association-list lookup (models `Map.get` / `WeakMap.get`). -/
def lookupA {α β : Type} [DecidableEq α] : List (α × β) → α → Option β
  | [], _ => none
  | (a, b) :: rest, x => if a = x then some b else lookupA rest x

/-- Association-list update (models `Map.set` / `WeakMap.set`). -/
def setA {α β : Type} [DecidableEq α] : List (α × β) → α → β → List (α × β)
  | [], x, y => [(x, y)]
  | (a, b) :: rest, x, y => if a = x then (x, y) :: rest else (a, b) :: setA rest x y

/-- The per-object key-to-dep map (`KeyToDepMap`): key to dep members. -/
abbrev DepsMap := List (Key × List Nat)

/-- The global engine state: the module-level `targetMap`, the store of
effect records, and the module-level `activeEffect` / `shouldTrack`. -/
structure RState where
  targetMap : List (Obj × DepsMap)
  effects : List (Nat × Effect)
  activeEffect : Option Nat
  shouldTrack : Bool
deriving DecidableEq, Repr

/-- Read an effect record (a missing id yields an inert default). -/
def getEffect (s : RState) (e : Nat) : Effect :=
  (lookupA s.effects e).getD {}

/-- Write an effect record. -/
def setEffect (s : RState) (e : Nat) (ef : Effect) : RState :=
  { s with effects := setA s.effects e ef }

/-- Update an effect record in place. -/
def updEffect (s : RState) (e : Nat) (g : Effect → Effect) : RState :=
  setEffect s e (g (getEffect s e))

/-- The members of the Dep set for `(t, k)` ([] when absent). -/
def depMembers (s : RState) (t : Obj) (k : Key) : List Nat :=
  ((lookupA s.targetMap t).bind (fun dm => lookupA dm k)).getD []

/-- Overwrite the Dep set stored at `(t, k)` (creating map entries as
needed), mirroring in-place mutation of the shared JS `Set`. -/
def setDepMembers (s : RState) (t : Obj) (k : Key) (l : List Nat) : RState :=
  { s with targetMap := setA s.targetMap t (setA ((lookupA s.targetMap t).getD []) k l) }

/-- `Set.add`: append if absent (JS `Set` keeps insertion order, dedups). -/
def setAdd (l : List Nat) (e : Nat) : List Nat :=
  if e ∈ l then l else l ++ [e]

/-- `pauseTracking()` (effect.ts line 26): `shouldTrack = false`. -/
def pauseTracking (s : RState) : RState :=
  { s with shouldTrack := false }

/-- `resetTracking()` (effect.ts line 30): `shouldTrack = true`. -/
def resetTracking (s : RState) : RState :=
  { s with shouldTrack := true }

/-- `trackEffects(dep)` (effect.ts lines 135-140): if there is an active
effect, add it to the dep and push the dep onto its subscription list.  The
dep is addressed by its registry location `(t, k)`. -/
def trackEffects (s : RState) (t : Obj) (k : Key) : RState :=
  match s.activeEffect with
  | none => s
  | some a =>
    let s1 := setDepMembers s t k (setAdd (depMembers s t k) a)
    updEffect s1 a (fun ef => { ef with deps := ef.deps ++ [(t, k)] })

/-- `track(target, key)` (effect.ts lines 83-95): no-op unless
`shouldTrack && activeEffect`; otherwise resolve or create the depsMap and
the dep, then `trackEffects(dep)`. -/
def track (s : RState) (t : Obj) (k : Key) : RState :=
  if s.shouldTrack = true ∧ s.activeEffect.isSome then
    let depsMap := (lookupA s.targetMap t).getD []
    let dep := (lookupA depsMap k).getD []
    trackEffects (setDepMembers s t k dep) t k
  else s

/-- `dep.delete(effect)` for the dep stored at `(t, k)`: remove `e` from its
member list (no-op when the registry has no such dep). -/
def depDelete (s : RState) (t : Obj) (k : Key) (e : Nat) : RState :=
  match lookupA s.targetMap t with
  | none => s
  | some dm =>
    match lookupA dm k with
    | none => s
    | some dep =>
      { s with targetMap := setA s.targetMap t (setA dm k (dep.filter (fun x => x ≠ e))) }

/-- `cleanupEffect(effect)` (effect.ts lines 182-190): delete the effect from
every dep on its subscription list, then clear the list
(`deps.length = 0`). -/
def cleanupEffect (s : RState) (e : Nat) : RState :=
  let s1 := (getEffect s e).deps.foldl (fun acc tk => depDelete acc tk.1 tk.2 e) s
  updEffect s1 e (fun ef => { ef with deps := [] })

/-- `ReactiveEffect.stop()` (effect.ts lines 72-80): if this effect is the
active one, just set `deferStop`; otherwise `cleanupEffect`, invoke `onStop`
if present, and clear `active`. -/
def stop (s : RState) (e : Nat) : RState :=
  if s.activeEffect = some e then
    updEffect s e (fun ef => { ef with deferStop := true })
  else
    let s1 := cleanupEffect s e
    let s2 :=
      if (getEffect s1 e).hasOnStop then
        updEffect s1 e (fun ef => { ef with onStopCalls := ef.onStopCalls + 1 })
      else s1
    updEffect s2 e (fun ef => { ef with active := false })

/-- Result of the user computation `fn`: normal return or thrown exception. -/
inductive Outcome where
  | ok : Outcome
  | err : Outcome
deriving DecidableEq, Repr

/-- The prefix of `ReactiveEffect.run()` on an active effect (effect.ts lines
57-60), executed before `this.fn()`: save `activeEffect` into `this.parent`,
install this effect as `activeEffect`, set `shouldTrack = true`, and
`cleanupEffect(this)`. -/
def runPrelude (s : RState) (e : Nat) : RState :=
  let s1 := updEffect s e (fun ef => { ef with parent := s.activeEffect })
  let s2 := { s1 with activeEffect := some e, shouldTrack := true }
  cleanupEffect s2 e

/-- The `finally` block of `ReactiveEffect.run()` (effect.ts lines 62-69):
restore `activeEffect` from `this.parent`, clear `this.parent`, and if a stop
was deferred, perform `this.stop()` then clear `deferStop`. -/
def runFinally (s : RState) (e : Nat) : RState :=
  let s1 := { s with activeEffect := (getEffect s e).parent }
  let s2 := updEffect s1 e (fun ef => { ef with parent := none })
  if (getEffect s2 e).deferStop then
    let s3 := stop s2 e
    updEffect s3 e (fun ef => { ef with deferStop := false })
  else s2

/-- `ReactiveEffect.run()` (effect.ts lines 53-70), parameterized by the user
computation `fn`.  An inactive effect just runs `fn` with no tracking side
effects; an active one runs the prelude, then `fn`, then the `finally` block
(on normal return and on exception alike). -/
def run (s : RState) (e : Nat) (fn : RState → RState × Outcome) : RState × Outcome :=
  if (getEffect s e).active then
    let p := fn (runPrelude s e)
    (runFinally p.1 e, p.2)
  else fn s

/-- The index keys pushed by the array-truncation loop of `trigger`
(effect.ts lines 111-115): `for (i = newValue; i < oldValue; i++)
deps.push(depsMap.get((i - 1) + ''))`. -/
def truncationKeys (newValue oldValue : Int) : List Key :=
  (List.range (oldValue - newValue).toNat).map
    (fun j => Key.s (toString (newValue + (j : Int) - 1)))

/-- The registry keys whose deps `trigger` collects (effect.ts lines
107-123), in push order: the exact key, then the truncation keys when the
target is an array and the key is `'length'`, then the ADD fan-out key
(`'length'` for integer indices on arrays, `ITERATE_KEY` for other
objects). -/
def triggerKeys (t : Obj) (ty : TriggerOp) (k : Key) (newValue oldValue : Int) : List Key :=
  [k]
    ++ (if isArray t ∧ k = Key.s "length" then truncationKeys newValue oldValue else [])
    ++ (if ty = TriggerOp.add then
          if isArray t ∧ isIntegerKey k then [Key.s "length"]
          else if isObject t then [Key.iterate]
          else []
        else [])

/-- Add all members of `l` to the accumulated set (the inner
`_dep.forEach(v => dep.add(v))` of effect.ts lines 127-130). -/
def addAll (acc : List Nat) (l : List Nat) : List Nat :=
  l.foldl setAdd acc

/-- The deduplicated union `Set` built by `trigger` (effect.ts lines
126-130) from the collected deps, in insertion order. -/
def dedupUnion (ls : List (List Nat)) : List Nat :=
  ls.foldl addAll []

/-- The deduplicated collection of affected effects computed by `trigger`
before calling `triggerEffects` ([] when the target has no registry
entry — effect.ts line 105). -/
def triggerDedup (s : RState) (t : Obj) (ty : TriggerOp) (k : Key)
    (newValue oldValue : Int) : List Nat :=
  match lookupA s.targetMap t with
  | none => []
  | some dm => dedupUnion ((triggerKeys t ty k newValue oldValue).filterMap (lookupA dm))

/-- `triggerEffect(effect)` (effect.ts lines 160-168) as a decision at
notification time: the currently active effect is skipped (`none`);
otherwise its scheduler is invoked if present, else `run()`. -/
inductive NotifyAction where
  | viaScheduler : NotifyAction
  | viaRun : NotifyAction
deriving DecidableEq, Repr

/-- The action `triggerEffect` takes for one effect (effect.ts lines
160-168): `none` when skipped by the `activeEffect !== effect` guard. -/
def triggerEffect (s : RState) (e : Nat) : Option NotifyAction :=
  if s.activeEffect = some e then none
  else if (getEffect s e).hasScheduler then some NotifyAction.viaScheduler
  else some NotifyAction.viaRun

/-- The invocation order of `triggerEffects(dep)` (effect.ts lines 142-158):
the snapshot array `[...dep]` traversed in two passes, effects with
`computed` set first, then the rest. -/
def triggerEffectsOrder (s : RState) (dep : List Nat) : List Nat :=
  dep.filter (fun e => (getEffect s e).computed)
    ++ dep.filter (fun e => !(getEffect s e).computed)

/-- The effects actually notified (not skipped) by `triggerEffects`, in
invocation order. -/
def notifiedEffects (s : RState) (dep : List Nat) : List Nat :=
  (triggerEffectsOrder s dep).filter (fun e => (triggerEffect s e).isSome)

/-- `trigger(target, type, key, newValue, oldValue)` (effect.ts lines
97-133) as the list of effects that get notified, in invocation order. -/
def trigger (s : RState) (t : Obj) (ty : TriggerOp) (k : Key)
    (newValue oldValue : Int) : List Nat :=
  notifiedEffects s (triggerDedup s t ty k newValue oldValue)

/-! ## Helper lemmas about the embedding -/

theorem lookupA_setA_self {α β : Type} [DecidableEq α] (m : List (α × β)) (a : α) (b : β) :
    lookupA (setA m a b) a = some b := by
  induction m with
  | nil => simp [setA, lookupA]
  | cons p rest ih =>
    obtain ⟨x, y⟩ := p
    by_cases h : x = a
    · simp [setA, h, lookupA]
    · simp [setA, h, lookupA, ih]

theorem lookupA_setA_ne {α β : Type} [DecidableEq α] (m : List (α × β)) (a a' : α) (b : β)
    (h : a' ≠ a) : lookupA (setA m a b) a' = lookupA m a' := by
  induction m with
  | nil => simp [setA, lookupA, Ne.symm h]
  | cons p rest ih =>
    obtain ⟨x, y⟩ := p
    by_cases hx : x = a
    · subst hx
      simp [setA, lookupA, Ne.symm h]
    · simp [setA, hx, lookupA, ih]

theorem lookupA_mem {α β : Type} [DecidableEq α] :
    ∀ (m : List (α × β)) (a : α) (b : β), lookupA m a = some b → (a, b) ∈ m
  | [], _, _, h => by simp [lookupA] at h
  | (x, y) :: rest, a, b, h => by
    by_cases hx : x = a
    · subst hx
      simp [lookupA] at h
      simp [h]
    · simp [lookupA, hx] at h
      exact List.mem_cons_of_mem _ (lookupA_mem rest a b h)

theorem getEffect_updEffect_self (s : RState) (e : Nat) (g : Effect → Effect) :
    getEffect (updEffect s e g) e = g (getEffect s e) := by
  simp [getEffect, updEffect, setEffect, lookupA_setA_self]

theorem getEffect_updEffect_ne (s : RState) (e e' : Nat) (g : Effect → Effect)
    (h : e' ≠ e) : getEffect (updEffect s e g) e' = getEffect s e' := by
  simp [getEffect, updEffect, setEffect, lookupA_setA_ne _ _ _ _ h]

theorem depMembers_updEffect (s : RState) (e : Nat) (g : Effect → Effect) (t : Obj) (k : Key) :
    depMembers (updEffect s e g) t k = depMembers s t k := rfl

theorem getEffect_setDepMembers (s : RState) (t : Obj) (k : Key) (l : List Nat) (e : Nat) :
    getEffect (setDepMembers s t k l) e = getEffect s e := rfl

theorem depMembers_eq_getD (s : RState) (t : Obj) (k : Key) :
    depMembers s t k = (lookupA ((lookupA s.targetMap t).getD []) k).getD [] := by
  cases h : lookupA s.targetMap t <;> simp [depMembers, h, lookupA]

theorem depMembers_setDepMembers (s : RState) (t : Obj) (k : Key) (l : List Nat)
    (t' : Obj) (k' : Key) :
    depMembers (setDepMembers s t k l) t' k' =
      if t' = t ∧ k' = k then l else depMembers s t' k' := by
  by_cases ht : t' = t
  · subst ht
    rw [depMembers_eq_getD]
    show (lookupA ((lookupA (setA s.targetMap t' _) t').getD []) k').getD [] = _
    rw [lookupA_setA_self]
    by_cases hk : k' = k
    · subst hk
      simp [lookupA_setA_self]
    · simp only [Option.getD_some]
      rw [lookupA_setA_ne _ _ _ _ hk, if_neg (fun hh => hk hh.2), depMembers_eq_getD]
  · rw [if_neg (fun hh => ht hh.1), depMembers_eq_getD, depMembers_eq_getD]
    show (lookupA ((lookupA (setA s.targetMap t _) t').getD []) k').getD [] = _
    rw [lookupA_setA_ne _ _ _ _ ht]

theorem depDelete_effects (s : RState) (t : Obj) (k : Key) (e : Nat) :
    (depDelete s t k e).effects = s.effects := by
  unfold depDelete
  split
  · rfl
  · split <;> rfl

theorem depDelete_activeEffect (s : RState) (t : Obj) (k : Key) (e : Nat) :
    (depDelete s t k e).activeEffect = s.activeEffect := by
  unfold depDelete
  split
  · rfl
  · split <;> rfl

theorem depDelete_shouldTrack (s : RState) (t : Obj) (k : Key) (e : Nat) :
    (depDelete s t k e).shouldTrack = s.shouldTrack := by
  unfold depDelete
  split
  · rfl
  · split <;> rfl

theorem depDelete_eq_of_no_map (s : RState) (t : Obj) (k : Key) (e : Nat)
    (h : lookupA s.targetMap t = none) : depDelete s t k e = s := by
  unfold depDelete
  rw [h]

theorem depDelete_eq_of_no_dep (s : RState) (t : Obj) (k : Key) (e : Nat) (dm : DepsMap)
    (h1 : lookupA s.targetMap t = some dm) (h2 : lookupA dm k = none) :
    depDelete s t k e = s := by
  simp only [depDelete, h1, h2]

theorem depDelete_eq_of_dep (s : RState) (t : Obj) (k : Key) (e : Nat) (dm : DepsMap)
    (dep : List Nat) (h1 : lookupA s.targetMap t = some dm) (h2 : lookupA dm k = some dep) :
    depDelete s t k e = setDepMembers s t k (dep.filter (fun x => x ≠ e)) := by
  simp [depDelete, setDepMembers, h1, h2]

theorem depMembers_depDelete (s : RState) (t : Obj) (k : Key) (e : Nat) (t' : Obj) (k' : Key) :
    depMembers (depDelete s t k e) t' k' =
      if t' = t ∧ k' = k then (depMembers s t k).filter (fun x => x ≠ e)
      else depMembers s t' k' := by
  cases h1 : lookupA s.targetMap t with
  | none =>
    rw [depDelete_eq_of_no_map s t k e h1]
    have hk : depMembers s t k = [] := by rw [depMembers_eq_getD, h1]; rfl
    split
    · next hh => rw [hh.1, hh.2, hk]; rfl
    · rfl
  | some dm =>
    cases h2 : lookupA dm k with
    | none =>
      rw [depDelete_eq_of_no_dep s t k e dm h1 h2]
      have hk : depMembers s t k = [] := by rw [depMembers_eq_getD, h1]; simp [h2]
      split
      · next hh => rw [hh.1, hh.2, hk]; rfl
      · rfl
    | some dep =>
      rw [depDelete_eq_of_dep s t k e dm dep h1 h2, depMembers_setDepMembers]
      have hdep : depMembers s t k = dep := by
        rw [depMembers_eq_getD, h1]; simp [h2]
      rw [hdep]

theorem foldl_preserve {β γ : Type} (proj : RState → γ) (f : RState → β → RState)
    (h : ∀ a x, proj (f a x) = proj a) :
    ∀ (l : List β) (a : RState), proj (List.foldl f a l) = proj a
  | [], _ => rfl
  | x :: l, a => by
    rw [List.foldl_cons, foldl_preserve proj f h l (f a x), h]

theorem cleanup_fold_effects (s : RState) (e : Nat) (L : List (Obj × Key)) :
    (L.foldl (fun acc tk => depDelete acc tk.1 tk.2 e) s).effects = s.effects :=
  foldl_preserve (fun st => st.effects) _ (fun a x => depDelete_effects a x.1 x.2 e) L s

theorem cleanup_fold_activeEffect (s : RState) (e : Nat) (L : List (Obj × Key)) :
    (L.foldl (fun acc tk => depDelete acc tk.1 tk.2 e) s).activeEffect = s.activeEffect :=
  foldl_preserve (fun st => st.activeEffect) _ (fun a x => depDelete_activeEffect a x.1 x.2 e) L s

theorem cleanup_fold_shouldTrack (s : RState) (e : Nat) (L : List (Obj × Key)) :
    (L.foldl (fun acc tk => depDelete acc tk.1 tk.2 e) s).shouldTrack = s.shouldTrack :=
  foldl_preserve (fun st => st.shouldTrack) _ (fun a x => depDelete_shouldTrack a x.1 x.2 e) L s

theorem getEffect_congr {s s' : RState} (h : s.effects = s'.effects) (e : Nat) :
    getEffect s e = getEffect s' e := by
  simp [getEffect, h]

theorem cleanupEffect_activeEffect (s : RState) (e : Nat) :
    (cleanupEffect s e).activeEffect = s.activeEffect := by
  unfold cleanupEffect
  exact cleanup_fold_activeEffect s e _

theorem cleanupEffect_shouldTrack (s : RState) (e : Nat) :
    (cleanupEffect s e).shouldTrack = s.shouldTrack := by
  unfold cleanupEffect
  exact cleanup_fold_shouldTrack s e _

theorem getEffect_cleanupEffect (s : RState) (e e' : Nat) :
    getEffect (cleanupEffect s e) e' =
      if e' = e then { getEffect s e with deps := [] } else getEffect s e' := by
  unfold cleanupEffect
  have hf := cleanup_fold_effects s e (getEffect s e).deps
  by_cases h : e' = e
  · subst h
    rw [if_pos rfl, getEffect_updEffect_self, getEffect_congr hf]
  · rw [if_neg h, getEffect_updEffect_ne _ _ _ _ h, getEffect_congr hf]

theorem cleanup_fold_not_mem (e : Nat) :
    ∀ (L : List (Obj × Key)) (s : RState),
      (∀ t k, e ∈ depMembers s t k → (t, k) ∈ L) →
      ∀ t k, e ∉ depMembers (L.foldl (fun acc tk => depDelete acc tk.1 tk.2 e) s) t k
  | [], s, h, t, k => fun hm => by simpa using h t k hm
  | (t0, k0) :: L, s, h, t, k => by
    rw [List.foldl_cons]
    apply cleanup_fold_not_mem e L
    intro t' k' hm
    rw [depMembers_depDelete] at hm
    by_cases he : t' = t0 ∧ k' = k0
    · rw [if_pos he] at hm
      exact absurd (List.mem_filter.mp hm).2 (by simp)
    · rw [if_neg he] at hm
      rcases List.mem_cons.mp (h t' k' hm) with h1 | h2
      · exact absurd (by exact ⟨congrArg Prod.fst h1, congrArg Prod.snd h1⟩) he
      · exact h2

theorem depMembers_cleanupEffect_not_mem (s : RState) (e : Nat)
    (h : ∀ t k, e ∈ depMembers s t k → (t, k) ∈ (getEffect s e).deps) :
    ∀ t k, e ∉ depMembers (cleanupEffect s e) t k := by
  intro t k
  unfold cleanupEffect
  rw [depMembers_updEffect]
  exact cleanup_fold_not_mem e _ s h t k

theorem mem_setAdd {l : List Nat} {a x : Nat} : x ∈ setAdd l a ↔ x ∈ l ∨ x = a := by
  unfold setAdd
  split
  · next h =>
    constructor
    · exact Or.inl
    · rintro (hx | rfl)
      · exact hx
      · exact h
  · simp

theorem mem_foldl_setAdd : ∀ (l acc : List Nat) (x : Nat),
    x ∈ l.foldl setAdd acc ↔ x ∈ acc ∨ x ∈ l
  | [], acc, x => by simp
  | a :: l, acc, x => by
    rw [List.foldl_cons, mem_foldl_setAdd l (setAdd acc a) x, mem_setAdd]
    simp [or_assoc, eq_comm]

theorem mem_addAll (acc l : List Nat) (x : Nat) :
    x ∈ addAll acc l ↔ x ∈ acc ∨ x ∈ l :=
  mem_foldl_setAdd l acc x

theorem mem_foldl_addAll : ∀ (ls : List (List Nat)) (acc : List Nat) (x : Nat),
    x ∈ ls.foldl addAll acc ↔ x ∈ acc ∨ ∃ l, l ∈ ls ∧ x ∈ l
  | [], acc, x => by simp
  | l0 :: ls, acc, x => by
    rw [List.foldl_cons, mem_foldl_addAll ls (addAll acc l0) x, mem_addAll]
    constructor
    · rintro ((h | h) | ⟨l, hl, hx⟩)
      · exact Or.inl h
      · exact Or.inr ⟨l0, List.mem_cons_self _ _, h⟩
      · exact Or.inr ⟨l, List.mem_cons_of_mem _ hl, hx⟩
    · rintro (h | ⟨l, hl, hx⟩)
      · exact Or.inl (Or.inl h)
      · rcases List.mem_cons.mp hl with rfl | hl2
        · exact Or.inl (Or.inr hx)
        · exact Or.inr ⟨l, hl2, hx⟩

theorem mem_dedupUnion (ls : List (List Nat)) (x : Nat) :
    x ∈ dedupUnion ls ↔ ∃ l, l ∈ ls ∧ x ∈ l := by
  unfold dedupUnion
  rw [mem_foldl_addAll]
  simp

theorem updEffect_activeEffect (s : RState) (e : Nat) (g : Effect → Effect) :
    (updEffect s e g).activeEffect = s.activeEffect := rfl

theorem updEffect_shouldTrack (s : RState) (e : Nat) (g : Effect → Effect) :
    (updEffect s e g).shouldTrack = s.shouldTrack := rfl

theorem getEffect_updEffect_parent (s : RState) (e e' : Nat) (g : Effect → Effect)
    (hg : ∀ ef, (g ef).parent = ef.parent) :
    (getEffect (updEffect s e g) e').parent = (getEffect s e').parent := by
  by_cases h : e' = e
  · subst h
    rw [getEffect_updEffect_self, hg]
  · rw [getEffect_updEffect_ne _ _ _ _ h]

theorem getEffect_cleanupEffect_parent (s : RState) (e e' : Nat) :
    (getEffect (cleanupEffect s e) e').parent = (getEffect s e').parent := by
  rw [getEffect_cleanupEffect]
  split
  · next h => subst h; rfl
  · rfl

/-- `stop` on the currently active effect only sets `deferStop`. -/
theorem stop_eq_of_active (s : RState) (e : Nat) (h : s.activeEffect = some e) :
    stop s e = updEffect s e (fun ef => { ef with deferStop := true }) := by
  unfold stop
  rw [if_pos h]

/-- `stop` on a non-current effect: cleanup, optional callback, deactivate. -/
theorem stop_eq_of_not_active (s : RState) (e : Nat) (h : ¬s.activeEffect = some e) :
    stop s e =
      updEffect
        (if (getEffect (cleanupEffect s e) e).hasOnStop then
          updEffect (cleanupEffect s e) e (fun ef => { ef with onStopCalls := ef.onStopCalls + 1 })
        else cleanupEffect s e)
        e (fun ef => { ef with active := false }) := by
  unfold stop
  rw [if_neg h]

theorem stop_activeEffect (s : RState) (e : Nat) :
    (stop s e).activeEffect = s.activeEffect := by
  by_cases h : s.activeEffect = some e
  · rw [stop_eq_of_active s e h, updEffect_activeEffect]
  · rw [stop_eq_of_not_active s e h, updEffect_activeEffect]
    split
    · rw [updEffect_activeEffect, cleanupEffect_activeEffect]
    · exact cleanupEffect_activeEffect s e

theorem stop_shouldTrack (s : RState) (e : Nat) :
    (stop s e).shouldTrack = s.shouldTrack := by
  by_cases h : s.activeEffect = some e
  · rw [stop_eq_of_active s e h, updEffect_shouldTrack]
  · rw [stop_eq_of_not_active s e h, updEffect_shouldTrack]
    split
    · rw [updEffect_shouldTrack, cleanupEffect_shouldTrack]
    · exact cleanupEffect_shouldTrack s e

theorem stop_parent (s : RState) (e e' : Nat) :
    (getEffect (stop s e) e').parent = (getEffect s e').parent := by
  by_cases h : s.activeEffect = some e
  · rw [stop_eq_of_active s e h, getEffect_updEffect_parent]
    intro ef
    rfl
  · rw [stop_eq_of_not_active s e h, getEffect_updEffect_parent]
    · split
      · rw [getEffect_updEffect_parent, getEffect_cleanupEffect_parent]
        intro ef
        rfl
      · exact getEffect_cleanupEffect_parent s e e'
    · intro ef
      rfl

/-- `runPrelude` unfolded without let-bindings. -/
theorem runPrelude_eq (s : RState) (e : Nat) :
    runPrelude s e =
      cleanupEffect
        { updEffect s e (fun ef => { ef with parent := s.activeEffect }) with
          activeEffect := some e, shouldTrack := true } e := rfl

theorem runPrelude_activeEffect (s : RState) (e : Nat) :
    (runPrelude s e).activeEffect = some e := by
  rw [runPrelude_eq, cleanupEffect_activeEffect]

theorem runPrelude_shouldTrack (s : RState) (e : Nat) :
    (runPrelude s e).shouldTrack = true := by
  rw [runPrelude_eq, cleanupEffect_shouldTrack]

theorem getEffect_runPrelude (s : RState) (e : Nat) :
    getEffect (runPrelude s e) e =
      { getEffect s e with parent := s.activeEffect, deps := [] } := by
  rw [runPrelude_eq, getEffect_cleanupEffect, if_pos rfl]
  have h : getEffect
      { updEffect s e (fun ef => { ef with parent := s.activeEffect }) with
        activeEffect := some e, shouldTrack := true } e
      = getEffect (updEffect s e (fun ef => { ef with parent := s.activeEffect })) e := rfl
  rw [h, getEffect_updEffect_self]

/-- `runFinally` unfolded without let-bindings. -/
theorem runFinally_eq (s : RState) (e : Nat) :
    runFinally s e =
      (if (getEffect (updEffect { s with activeEffect := (getEffect s e).parent } e
            (fun ef => { ef with parent := none })) e).deferStop then
        updEffect
          (stop (updEffect { s with activeEffect := (getEffect s e).parent } e
            (fun ef => { ef with parent := none })) e)
          e (fun ef => { ef with deferStop := false })
      else
        updEffect { s with activeEffect := (getEffect s e).parent } e
          (fun ef => { ef with parent := none })) := rfl

theorem runFinally_activeEffect (s : RState) (e : Nat) :
    (runFinally s e).activeEffect = (getEffect s e).parent := by
  rw [runFinally_eq]
  split
  · rw [updEffect_activeEffect, stop_activeEffect, updEffect_activeEffect]
  · rw [updEffect_activeEffect]

theorem runFinally_shouldTrack (s : RState) (e : Nat) :
    (runFinally s e).shouldTrack = s.shouldTrack := by
  rw [runFinally_eq]
  split
  · rw [updEffect_shouldTrack, stop_shouldTrack, updEffect_shouldTrack]
  · rw [updEffect_shouldTrack]

theorem runFinally_parent_none (s : RState) (e : Nat) :
    (getEffect (runFinally s e) e).parent = none := by
  rw [runFinally_eq]
  split
  · rw [getEffect_updEffect_parent, stop_parent, getEffect_updEffect_self]
    intro ef
    rfl
  · rw [getEffect_updEffect_self]

/-- `run` on an active effect = prelude, then `fn`, then the finally block
(for normal and exceptional outcome alike). -/
theorem run_eq_of_active (s : RState) (e : Nat) (fn : RState → RState × Outcome)
    (hact : (getEffect s e).active = true) :
    run s e fn = (runFinally (fn (runPrelude s e)).1 e, (fn (runPrelude s e)).2) := by
  unfold run
  rw [if_pos hact]

/-- The effect record after a full (non-deferred) `stop` with an `onStop`
callback present. -/
theorem getEffect_stop_full_callback (s : RState) (e : Nat)
    (h : ¬s.activeEffect = some e) (hcb : (getEffect s e).hasOnStop = true) :
    getEffect (stop s e) e =
      { getEffect s e with
          deps := [], active := false,
          onStopCalls := (getEffect s e).onStopCalls + 1 } := by
  rw [stop_eq_of_not_active s e h, getEffect_updEffect_self]
  have hc : (getEffect (cleanupEffect s e) e).hasOnStop = true := by
    rw [getEffect_cleanupEffect, if_pos rfl]
    exact hcb
  rw [if_pos hc, getEffect_updEffect_self, getEffect_cleanupEffect, if_pos rfl]

/-- The effect record after a full (non-deferred) `stop` with no `onStop`
callback. -/
theorem getEffect_stop_full_plain (s : RState) (e : Nat)
    (h : ¬s.activeEffect = some e) (hcb : (getEffect s e).hasOnStop = false) :
    getEffect (stop s e) e = { getEffect s e with deps := [], active := false } := by
  rw [stop_eq_of_not_active s e h, getEffect_updEffect_self]
  have hc : ¬(getEffect (cleanupEffect s e) e).hasOnStop = true := by
    rw [getEffect_cleanupEffect, if_pos rfl]
    simp [hcb]
  rw [if_neg hc, getEffect_cleanupEffect, if_pos rfl]

/-! ## Claim theorems -/

/-- The array target of the sequence-truncation scenario. -/
def arrayTarget : Obj := ⟨0, ObjKind.arr⟩

/-- The sequence-truncation scenario: an array of length 5 with subscriber
effects 2, 3, 4 at index keys "2", "3", "4" and effect 9 at "length". -/
def truncationState : RState :=
  { targetMap := [(arrayTarget,
      [(Key.s "length", [9]), (Key.s "2", [2]), (Key.s "3", [3]), (Key.s "4", [4])])]
  , effects := [(9, {}), (2, {}), (3, {}), (4, {})]
  , activeEffect := none
  , shouldTrack := true }

/-- Claim C1 (code-bug evidence): for an array of length 5 with subscribers
at index keys "2", "3", "4" and at "length", calling `trigger` with key
"length", newValue 2, oldValue 5 notifies the "length" subscriber (9) and
the subscribers at indices 2 and 3, but does NOT notify the subscriber at
index 4: the truncation loop pushes `depsMap.get((i - 1) + '')` for
`i = newValue .. oldValue - 1`, i.e. keys "1", "2", "3" — an off-by-one
against the claimed keys "2", "3", "4". -/
theorem trigger_truncation_off_by_one :
    trigger truncationState arrayTarget TriggerOp.set (Key.s "length") 2 5 = [9, 2, 3] ∧
    4 ∉ trigger truncationState arrayTarget TriggerOp.set (Key.s "length") 2 5 := by
  decide

/-- The stop-twice scenario: a single effect with an `onStop` callback. -/
def stopTwiceState : RState :=
  { targetMap := []
  , effects := [(0, { hasOnStop := true })]
  , activeEffect := none
  , shouldTrack := true }

/-- Claim C2 (code-bug evidence): after a completed `stop()` (node
inactive), a second `stop()` is not a no-op — `stop()` has no active-flag
guard, so it reruns `cleanupEffect` and invokes the `onStop` callback again:
the callback fires twice in total instead of exactly once. -/
theorem stop_twice_fires_callback_twice :
    (getEffect (stop stopTwiceState 0) 0).active = false ∧
    (getEffect (stop stopTwiceState 0) 0).onStopCalls = 1 ∧
    (getEffect (stop (stop stopTwiceState 0) 0) 0).onStopCalls = 2 := by
  decide

/-- Claim C3: `triggerEffects` notifies in two passes over the deduplicated
collection — every effect whose `computed` mark is set is notified before
any effect without the mark: its invocation index is strictly smaller. -/
theorem triggerEffectsOrder_computed_first (s : RState) (dep : List Nat) (e1 e2 : Nat)
    (h1 : e1 ∈ dep) (_h2 : e2 ∈ dep)
    (hc1 : (getEffect s e1).computed = true) (hc2 : (getEffect s e2).computed = false) :
    (triggerEffectsOrder s dep).indexOf e1 < (triggerEffectsOrder s dep).indexOf e2 := by
  unfold triggerEffectsOrder
  have hm1 : e1 ∈ dep.filter (fun e => (getEffect s e).computed) :=
    List.mem_filter.mpr ⟨h1, by simp [hc1]⟩
  have hm2 : e2 ∉ dep.filter (fun e => (getEffect s e).computed) := by
    intro hmem
    have hp := (List.mem_filter.mp hmem).2
    simp [hc2] at hp
  rw [List.indexOf_append_of_mem hm1, List.indexOf_append_of_not_mem hm2]
  calc List.indexOf e1 (dep.filter (fun e => (getEffect s e).computed))
      < (dep.filter (fun e => (getEffect s e).computed)).length :=
        List.indexOf_lt_length.mpr hm1
    _ ≤ _ := Nat.le_add_right _ _

/-- A two-effect state for the ordering witness: effect 1 is computed,
effect 2 is plain. -/
def orderState : RState :=
  { targetMap := []
  , effects := [(1, { computed := true }), (2, {})]
  , activeEffect := none
  , shouldTrack := true }

/-- Witness for C3: in a collection listing the plain effect 2 before the
computed effect 1, the computed effect is still notified first. -/
theorem triggerEffectsOrder_computed_first_witness :
    (triggerEffectsOrder orderState [2, 1]).indexOf 1 <
      (triggerEffectsOrder orderState [2, 1]).indexOf 2 :=
  triggerEffectsOrder_computed_first orderState [2, 1] 1 2
    (by decide) (by decide) (by decide) (by decide)

/-- Claim C4: the currently executing effect is skipped entirely during
notification — `triggerEffect` takes no action on it (neither scheduler nor
run), it never appears among the notified effects of `triggerEffects`, and
hence never in the notification list of any `trigger` call. -/
theorem trigger_skips_active_effect (s : RState) (e : Nat) (h : s.activeEffect = some e) :
    triggerEffect s e = none ∧
    (∀ dep : List Nat, e ∉ notifiedEffects s dep) ∧
    (∀ (t : Obj) (ty : TriggerOp) (k : Key) (nv ov : Int), e ∉ trigger s t ty k nv ov) := by
  have hact : triggerEffect s e = none := by simp [triggerEffect, h]
  have h2 : ∀ dep : List Nat, e ∉ notifiedEffects s dep := by
    intro dep hmem
    unfold notifiedEffects at hmem
    have hp := (List.mem_filter.mp hmem).2
    rw [hact] at hp
    simp at hp
  exact ⟨hact, h2, fun t ty k nv ov => h2 _⟩

/-- A state where effect 0 is currently executing and both 0 and 1 subscribe
to slot `(obj 7, "a")`. -/
def selfWriteState : RState :=
  { targetMap := [(⟨7, ObjKind.plain⟩, [(Key.s "a", [0, 1])])]
  , effects := [(0, {}), (1, {})]
  , activeEffect := some 0
  , shouldTrack := true }

/-- Witness for C4: effect 0, currently executing and subscribed to the
written slot, is not notified by the write. -/
theorem trigger_skips_active_effect_witness :
    triggerEffect selfWriteState 0 = none ∧
    0 ∉ trigger selfWriteState ⟨7, ObjKind.plain⟩ TriggerOp.set (Key.s "a") 0 0 := by
  have h := trigger_skips_active_effect selfWriteState 0 rfl
  exact ⟨h.1, h.2.2 _ _ _ _ _⟩

/-- Claim C8: the `track` (record-read) contract.  Unless tracking is
enabled and an active effect exists, `track` is the identity.  Otherwise it
adds the active effect to the Dep set of the written slot (creating the maps
as needed), appends that slot to the effect's subscription list, and touches
nothing else: other slots, other effects, `activeEffect` and `shouldTrack`
are unchanged. -/
theorem track_contract (s : RState) (t : Obj) (k : Key) :
    (¬(s.shouldTrack = true ∧ s.activeEffect.isSome) → track s t k = s) ∧
    (∀ a, s.activeEffect = some a → s.shouldTrack = true →
      depMembers (track s t k) t k = setAdd (depMembers s t k) a ∧
      a ∈ depMembers (track s t k) t k ∧
      (getEffect (track s t k) a).deps = (getEffect s a).deps ++ [(t, k)] ∧
      (∀ t' k', ¬(t' = t ∧ k' = k) → depMembers (track s t k) t' k' = depMembers s t' k') ∧
      (∀ e, e ≠ a → getEffect (track s t k) e = getEffect s e) ∧
      (track s t k).activeEffect = s.activeEffect ∧
      (track s t k).shouldTrack = s.shouldTrack) := by
  constructor
  · intro hng
    unfold track
    rw [if_neg hng]
  · intro a ha hst
    have hs0 : ∀ t' k',
        depMembers (setDepMembers s t k (depMembers s t k)) t' k' = depMembers s t' k' := by
      intro t' k'
      rw [depMembers_setDepMembers]
      split
      · next hh => rw [hh.1, hh.2]
      · rfl
    have htrack : track s t k =
        trackEffects (setDepMembers s t k (depMembers s t k)) t k := by
      simp only [track, hst, ha, Option.isSome_some, and_self, if_true]
      rw [← depMembers_eq_getD]
    have htr : trackEffects (setDepMembers s t k (depMembers s t k)) t k =
        updEffect
          (setDepMembers (setDepMembers s t k (depMembers s t k)) t k
            (setAdd (depMembers (setDepMembers s t k (depMembers s t k)) t k) a))
          a (fun ef => { ef with deps := ef.deps ++ [(t, k)] }) := by
      unfold trackEffects
      rw [show (setDepMembers s t k (depMembers s t k)).activeEffect = some a from ha]
    rw [htrack, htr]
    refine ⟨?_, ?_, ?_, ?_, ?_, rfl, rfl⟩
    · rw [depMembers_updEffect, depMembers_setDepMembers, if_pos ⟨rfl, rfl⟩, hs0]
    · rw [depMembers_updEffect, depMembers_setDepMembers, if_pos ⟨rfl, rfl⟩, hs0]
      exact mem_setAdd.mpr (Or.inr rfl)
    · simp only [getEffect_updEffect_self, getEffect_setDepMembers]
    · intro t' k' hne
      rw [depMembers_updEffect, depMembers_setDepMembers, if_neg hne, hs0]
    · intro e hne
      rw [getEffect_updEffect_ne _ _ _ _ hne, getEffect_setDepMembers, getEffect_setDepMembers]

/-- A state with tracking paused and effect 0 active. -/
def trackOffState : RState :=
  { targetMap := []
  , effects := [(0, {})]
  , activeEffect := some 0
  , shouldTrack := false }

/-- A state with tracking enabled, effect 0 active, empty registry. -/
def trackOnState : RState :=
  { targetMap := []
  , effects := [(0, {})]
  , activeEffect := some 0
  , shouldTrack := true }

/-- The slot used by the track-contract witness. -/
def trackObj : Obj := ⟨5, ObjKind.plain⟩

/-- Witness for C8: with tracking paused `track` changes nothing even though
an effect is active; with tracking enabled it creates the dep, records the
active effect 0 in it and appends the slot to 0's subscription list. -/
theorem track_contract_witness :
    track trackOffState trackObj (Key.s "x") = trackOffState ∧
    depMembers (track trackOnState trackObj (Key.s "x")) trackObj (Key.s "x") = [0] ∧
    (getEffect (track trackOnState trackObj (Key.s "x")) 0).deps = [(trackObj, Key.s "x")] := by
  have hoff := (track_contract trackOffState trackObj (Key.s "x")).1 (by decide)
  have hon := (track_contract trackOnState trackObj (Key.s "x")).2 0 rfl rfl
  refine ⟨hoff, ?_, ?_⟩
  · rw [hon.1]
    decide
  · rw [hon.2.2.1]
    decide

/-- Claim C9: addition fan-out of `trigger`.  On an `add` operation: if the
target is an array and the key an integer index, the members of the
"length" Dep set are among the notified collection; if the target is a
plain (non-array) object, the members of the `ITERATE_KEY` Dep set are; and
the members of the exact key's Dep set are included in every case. -/
theorem trigger_add_fanout (s : RState) (t : Obj) (k : Key) (nv ov : Int) (e : Nat)
    (dm : DepsMap) (hdm : lookupA s.targetMap t = some dm) :
    (isArray t = true → isIntegerKey k = true →
      e ∈ depMembers s t (Key.s "length") →
      e ∈ triggerDedup s t TriggerOp.add k nv ov) ∧
    (isArray t = false →
      e ∈ depMembers s t Key.iterate →
      e ∈ triggerDedup s t TriggerOp.add k nv ov) ∧
    (e ∈ depMembers s t k → e ∈ triggerDedup s t TriggerOp.add k nv ov) := by
  have hmem : ∀ key, key ∈ triggerKeys t TriggerOp.add k nv ov →
      e ∈ depMembers s t key → e ∈ triggerDedup s t TriggerOp.add k nv ov := by
    intro key hk he
    unfold triggerDedup
    rw [hdm, mem_dedupUnion]
    have hgd : depMembers s t key = (lookupA dm key).getD [] := by
      rw [depMembers_eq_getD, hdm]
      rfl
    rw [hgd] at he
    cases hdep : lookupA dm key with
    | none =>
      rw [hdep] at he
      simp at he
    | some dep =>
      rw [hdep] at he
      exact ⟨dep, List.mem_filterMap.mpr ⟨key, hk, hdep⟩, he⟩
  refine ⟨?_, ?_, ?_⟩
  · intro harr hint he
    exact hmem (Key.s "length") (by simp [triggerKeys, harr, hint]) he
  · intro harr he
    exact hmem Key.iterate (by simp [triggerKeys, harr, isObject]) he
  · intro he
    exact hmem k (by simp [triggerKeys]) he

/-- The array target of the fan-out witness. -/
def fanoutArray : Obj := ⟨1, ObjKind.arr⟩

/-- The plain target of the fan-out witness. -/
def fanoutPlain : Obj := ⟨2, ObjKind.plain⟩

/-- Fan-out witness state: effect 7 subscribes to the array's "length",
effect 1 to its index "1"; effect 5 subscribes to the plain object's
iteration set, effect 6 to its key "a". -/
def fanoutState : RState :=
  { targetMap := [(fanoutArray, [(Key.s "length", [7]), (Key.s "1", [1])]),
                  (fanoutPlain, [(Key.iterate, [5]), (Key.s "a", [6])])]
  , effects := [(7, {}), (1, {}), (5, {}), (6, {})]
  , activeEffect := none
  , shouldTrack := true }

/-- Witness for C9: adding index "1" to the array reaches the "length"
subscriber 7 and the exact-key subscriber 1; adding key "b" to the plain
object reaches the iteration subscriber 5; writing key "a" reaches the
exact-key subscriber 6. -/
theorem trigger_add_fanout_witness :
    7 ∈ triggerDedup fanoutState fanoutArray TriggerOp.add (Key.s "1") 0 0 ∧
    1 ∈ triggerDedup fanoutState fanoutArray TriggerOp.add (Key.s "1") 0 0 ∧
    5 ∈ triggerDedup fanoutState fanoutPlain TriggerOp.add (Key.s "b") 0 0 ∧
    6 ∈ triggerDedup fanoutState fanoutPlain TriggerOp.add (Key.s "a") 0 0 := by
  refine ⟨?_, ?_, ?_, ?_⟩
  · exact (trigger_add_fanout fanoutState fanoutArray (Key.s "1") 0 0 7 _ rfl).1
      (by decide) (by decide) (by decide)
  · exact (trigger_add_fanout fanoutState fanoutArray (Key.s "1") 0 0 1 _ rfl).2.2
      (by decide)
  · exact (trigger_add_fanout fanoutState fanoutPlain (Key.s "b") 0 0 5 _ rfl).2.1
      (by decide) (by decide)
  · exact (trigger_add_fanout fanoutState fanoutPlain (Key.s "a") 0 0 6 _ rfl).2.2
      (by decide)

/-- Claim C6: LIFO restoration.  For every `run` of an active effect whose
computation does not touch the effect's own parent link (every engine
operation except re-running the same effect preserves it), on exit —
whether `fn` returned `ok` or `err`, since the finally block runs either
way — `activeEffect` equals the value it had before the run began, the
effect's parent link is cleared, and the computation's outcome is
propagated unchanged. -/
theorem run_restores_context (s : RState) (e : Nat) (fn : RState → RState × Outcome)
    (hact : (getEffect s e).active = true)
    (hfn : ∀ s', (getEffect (fn s').1 e).parent = (getEffect s' e).parent) :
    (run s e fn).1.activeEffect = s.activeEffect ∧
    (getEffect (run s e fn).1 e).parent = none ∧
    (run s e fn).2 = (fn (runPrelude s e)).2 := by
  rw [run_eq_of_active s e fn hact]
  refine ⟨?_, ?_, rfl⟩
  · rw [runFinally_activeEffect, hfn, getEffect_runPrelude]
  · rw [runFinally_parent_none]

/-- Nesting scenario: effect 1 is currently executing and effect 0 (active,
parent-free) is run inside it. -/
def lifoState : RState :=
  { targetMap := []
  , effects := [(0, {}), (1, {})]
  , activeEffect := some 1
  , shouldTrack := true }

/-- Witness for C6: running effect 0 nested inside effect 1 with a FAILING
computation still restores `activeEffect` to effect 1, clears 0's parent
link, and propagates the error outcome. -/
theorem run_restores_context_witness :
    (run lifoState 0 (fun st => (st, Outcome.err))).1.activeEffect = some 1 ∧
    (getEffect (run lifoState 0 (fun st => (st, Outcome.err))).1 0).parent = none ∧
    (run lifoState 0 (fun st => (st, Outcome.err))).2 = Outcome.err := by
  have h := run_restores_context lifoState 0 (fun st => (st, Outcome.err))
    (by decide) (fun s' => rfl)
  exact ⟨h.1, h.2.1, h.2.2⟩

/-- Claim C10: `run()` on an active effect unconditionally sets the global
tracking flag to true and never restores its previous value on exit: for a
computation that leaves the flag where the prelude put it, `shouldTrack` is
true after `run` returns even when tracking had been paused just before
the call — the suppression of a surrounding `pauseTracking` region is
silently cancelled. -/
theorem run_leaves_tracking_enabled (s : RState) (e : Nat) (fn : RState → RState × Outcome)
    (hact : (getEffect s e).active = true)
    (hfn : ∀ s', (fn s').1.shouldTrack = s'.shouldTrack) :
    (run (pauseTracking s) e fn).1.shouldTrack = true ∧
    (run s e fn).1.shouldTrack = true ∧
    (pauseTracking s).shouldTrack = false := by
  have key : ∀ s0 : RState, (getEffect s0 e).active = true →
      (run s0 e fn).1.shouldTrack = true := by
    intro s0 h0
    rw [run_eq_of_active s0 e fn h0]
    show (runFinally (fn (runPrelude s0 e)).1 e).shouldTrack = true
    rw [runFinally_shouldTrack, hfn, runPrelude_shouldTrack]
  exact ⟨key _ hact, key _ hact, rfl⟩

/-- A state with one active effect, used by the tracking-flag witness. -/
def pausedState : RState :=
  { targetMap := []
  , effects := [(0, {})]
  , activeEffect := none
  , shouldTrack := true }

/-- Witness for C10: after pausing tracking and then running effect 0 with
an inert computation, tracking is enabled again. -/
theorem run_leaves_tracking_enabled_witness :
    (run (pauseTracking pausedState) 0 (fun st => (st, Outcome.ok))).1.shouldTrack = true ∧
    (pauseTracking pausedState).shouldTrack = false := by
  have h := run_leaves_tracking_enabled pausedState 0 (fun st => (st, Outcome.ok))
    (by decide) (fun s' => rfl)
  exact ⟨h.1, h.2.2⟩

/-- Claim C7: deferred stop.  (1) `stop()` on the currently executing
effect only sets its `deferStop` flag — the state is otherwise identical,
so no Dep set, subscription list, tracking flag or active flag is mutated.
(2) When the computation requested a stop (`deferStop` is set on the state
the computation produced) and the restored parent is not the effect itself,
the completing `run` performs the full deactivation: `active` becomes
false, the subscription list is emptied, `deferStop` is reset, and the
`onStop` callback — when present — fires exactly once more. -/
theorem stop_deferred_and_completed (s : RState) (e : Nat) :
    (s.activeEffect = some e →
      stop s e = updEffect s e (fun ef => { ef with deferStop := true })) ∧
    (∀ (fn : RState → RState × Outcome) (s5 : RState),
      (getEffect s e).active = true →
      (fn (runPrelude s e)).1 = s5 →
      (getEffect s5 e).deferStop = true →
      ¬(getEffect s5 e).parent = some e →
      (getEffect (run s e fn).1 e).active = false ∧
      (getEffect (run s e fn).1 e).deps = [] ∧
      (getEffect (run s e fn).1 e).deferStop = false ∧
      ((getEffect s5 e).hasOnStop = true →
        (getEffect (run s e fn).1 e).onStopCalls = (getEffect s5 e).onStopCalls + 1)) := by
  constructor
  · intro h
    exact stop_eq_of_active s e h
  · intro fn s5 hact hfn1 hdefer hpar
    rw [run_eq_of_active s e fn hact, hfn1]
    have hdef2 : (getEffect (updEffect { s5 with activeEffect := (getEffect s5 e).parent } e
        (fun ef => { ef with parent := none })) e).deferStop = true := by
      rw [getEffect_updEffect_self]
      exact hdefer
    have hfin : runFinally s5 e =
        updEffect (stop (updEffect { s5 with activeEffect := (getEffect s5 e).parent } e
          (fun ef => { ef with parent := none })) e) e
          (fun ef => { ef with deferStop := false }) := by
      rw [runFinally_eq, if_pos hdef2]
    rw [hfin]
    have hs2e : getEffect (updEffect { s5 with activeEffect := (getEffect s5 e).parent } e
        (fun ef => { ef with parent := none })) e = { getEffect s5 e with parent := none } := by
      rw [getEffect_updEffect_self]
      rfl
    have hs2act : ¬(updEffect { s5 with activeEffect := (getEffect s5 e).parent } e
        (fun ef => { ef with parent := none })).activeEffect = some e := by
      rw [updEffect_activeEffect]
      exact hpar
    by_cases hcb : (getEffect s5 e).hasOnStop = true
    · have hstop := getEffect_stop_full_callback _ e hs2act (by rw [hs2e]; exact hcb)
      refine ⟨?_, ?_, ?_, fun _ => ?_⟩
      · rw [getEffect_updEffect_self, hstop]
      · rw [getEffect_updEffect_self, hstop]
      · rw [getEffect_updEffect_self, hstop]
      · rw [getEffect_updEffect_self, hstop, hs2e]
    · have hcbf : (getEffect s5 e).hasOnStop = false := by
        simpa using hcb
      have hstop := getEffect_stop_full_plain _ e hs2act (by rw [hs2e]; exact hcbf)
      refine ⟨?_, ?_, ?_, fun hh => absurd hh hcb⟩
      · rw [getEffect_updEffect_self, hstop]
      · rw [getEffect_updEffect_self, hstop]
      · rw [getEffect_updEffect_self, hstop]

/-- Scenario for part 1 of the deferred-stop witness: effect 0 is currently
executing. -/
def deferAState : RState :=
  { targetMap := []
  , effects := [(0, { hasOnStop := true })]
  , activeEffect := some 0
  , shouldTrack := true }

/-- Scenario for part 2 of the deferred-stop witness: effect 0 is active
(not yet running) and will call `stop` on itself during its run. -/
def deferBState : RState :=
  { targetMap := []
  , effects := [(0, { hasOnStop := true })]
  , activeEffect := none
  , shouldTrack := true }

/-- Witness for C7: stopping the in-flight effect only sets `deferStop`;
a run whose computation stops its own effect ends with the effect fully
deactivated and the callback fired once. -/
theorem stop_deferred_and_completed_witness :
    stop deferAState 0 = updEffect deferAState 0 (fun ef => { ef with deferStop := true }) ∧
    (getEffect (run deferBState 0 (fun st => (stop st 0, Outcome.ok))).1 0).active = false ∧
    (getEffect (run deferBState 0 (fun st => (stop st 0, Outcome.ok))).1 0).deps = [] ∧
    (getEffect (run deferBState 0 (fun st => (stop st 0, Outcome.ok))).1 0).deferStop = false ∧
    (getEffect (run deferBState 0 (fun st => (stop st 0, Outcome.ok))).1 0).onStopCalls =
      (getEffect (stop (runPrelude deferBState 0) 0) 0).onStopCalls + 1 := by
  have ha := (stop_deferred_and_completed deferAState 0).1 rfl
  have hb := (stop_deferred_and_completed deferBState 0).2
    (fun st => (stop st 0, Outcome.ok)) (stop (runPrelude deferBState 0) 0)
    (by decide) rfl (by decide) (by decide)
  exact ⟨ha, hb.1, hb.2.1, hb.2.2.1, hb.2.2.2 (by decide)⟩

/-- Claim C5: re-run discards prior subscriptions.  Under bidirectional
consistency (every Dep set containing the effect is on its subscription
list — the invariant `track` maintains), the prelude that `run` executes
before the computation leaves the effect in no Dep set with an empty
subscription list; consequently no write — through any `trigger` — can
reach the effect until it re-subscribes by re-reading. -/
theorem run_discards_prior_subscriptions (s : RState) (e : Nat)
    (hbi : ∀ p ∈ s.targetMap, ∀ q ∈ p.2, e ∈ q.2 → (p.1, q.1) ∈ (getEffect s e).deps) :
    (∀ t k, e ∉ depMembers (runPrelude s e) t k) ∧
    (getEffect (runPrelude s e) e).deps = [] ∧
    (∀ (t : Obj) (ty : TriggerOp) (k : Key) (nv ov : Int),
      e ∉ triggerDedup (runPrelude s e) t ty k nv ov) := by
  have hpt : ∀ t k, e ∈ depMembers s t k → (t, k) ∈ (getEffect s e).deps := by
    intro t k hm
    cases h1 : lookupA s.targetMap t with
    | none =>
      rw [depMembers_eq_getD, h1] at hm
      simp [lookupA] at hm
    | some dm =>
      rw [depMembers_eq_getD, h1] at hm
      simp only [Option.getD_some] at hm
      cases h2 : lookupA dm k with
      | none =>
        rw [h2] at hm
        simp at hm
      | some dep =>
        rw [h2] at hm
        simp only [Option.getD_some] at hm
        exact hbi (t, dm) (lookupA_mem _ _ _ h1) (k, dep) (lookupA_mem _ _ _ h2) hm
  have hnot : ∀ t k, e ∉ depMembers (runPrelude s e) t k := by
    rw [runPrelude_eq]
    apply depMembers_cleanupEffect_not_mem
    intro t k hm
    have hm' : e ∈ depMembers s t k := hm
    have hd := hpt t k hm'
    rw [show getEffect { updEffect s e (fun ef => { ef with parent := s.activeEffect }) with
        activeEffect := some e, shouldTrack := true } e
        = getEffect (updEffect s e (fun ef => { ef with parent := s.activeEffect })) e from rfl,
      getEffect_updEffect_self]
    exact hd
  refine ⟨hnot, ?_, ?_⟩
  · rw [getEffect_runPrelude]
  · intro t ty k nv ov hmem
    unfold triggerDedup at hmem
    cases h1 : lookupA (runPrelude s e).targetMap t with
    | none => simp [h1] at hmem
    | some dm =>
      simp only [h1] at hmem
      rw [mem_dedupUnion] at hmem
      obtain ⟨l, hl, hel⟩ := hmem
      obtain ⟨key, hkmem, hlk⟩ := List.mem_filterMap.mp hl
      apply hnot t key
      rw [depMembers_eq_getD, h1]
      simp only [Option.getD_some]
      rw [hlk]
      exact hel

/-- The observed object of the branch-pruning witness. -/
def branchObj : Obj := ⟨3, ObjKind.plain⟩

/-- Branch-pruning witness state: effect 0 subscribed to slot `(obj 3, "a")`
on its previous run, with a consistent subscription list. -/
def branchState : RState :=
  { targetMap := [(branchObj, [(Key.s "a", [0])])]
  , effects := [(0, { deps := [(branchObj, Key.s "a")] })]
  , activeEffect := none
  , shouldTrack := true }

/-- Witness for C5: after the prelude of a re-run, effect 0 is out of the
`"a"` Dep set, its subscription list is empty, and a write to `"a"` no
longer reaches it. -/
theorem run_discards_prior_subscriptions_witness :
    0 ∉ depMembers (runPrelude branchState 0) branchObj (Key.s "a") ∧
    (getEffect (runPrelude branchState 0) 0).deps = [] ∧
    0 ∉ triggerDedup (runPrelude branchState 0) branchObj TriggerOp.set (Key.s "a") 0 0 := by
  have h := run_discards_prior_subscriptions branchState 0 (by decide)
  exact ⟨h.1 _ _, h.2.1, h.2.2 _ _ _ _ _⟩

end MyVue
